import Mathlib

/-!
Verification of the time-rounding, project-ordering, config-merge and menu
logic of the `toggl` command-line assistant (`src/toggl/main.py`), against a
shallow embedding of its Python source in Lean.
-/

namespace Toggl

/-! ## Model of Python `datetime` values

Model of an aware Python `datetime`.  The rounding code only ever rewrites the
`minute`, `second` and `microsecond` fields (`datetime.replace`) or adds a
15-minute `timedelta`, so the year/month/day/hour fields are aggregated into a
single wall-clock hour count `hourIndex` (hours since an arbitrary epoch, in
the datetime's own timezone).  `offset` is the timezone's UTC offset in
minutes (`utcoffset()`); aware datetimes compare (`==`, `<=`) by the instant
they denote, i.e. after subtracting the offset. -/
structure DT where
  hourIndex : Int
  minute : Nat
  second : Nat
  microsecond : Nat
  offset : Int
deriving DecidableEq, Repr

/-- The instant denoted by an aware datetime, in microseconds since the epoch:
Python's `==` / `<=` / `-` on aware datetimes operate on this value. -/
def instant (dt : DT) : Int :=
  ((dt.hourIndex * 60 + (dt.minute : Int) - dt.offset) * 60 + (dt.second : Int)) * 1000000
    + (dt.microsecond : Int)

/-- Field ranges every actual Python `datetime` satisfies. -/
def DT.valid (dt : DT) : Prop :=
  dt.minute < 60 ∧ dt.second < 60 ∧ dt.microsecond < 1000000

instance (dt : DT) : Decidable dt.valid := by
  unfold DT.valid
  infer_instance

/-- `_round_time_down(dt)`: Python
`dt.replace(minute=(dt.minute // 15) * 15, second=0, microsecond=0)`. -/
def round_time_down (dt : DT) : DT :=
  { dt with minute := dt.minute / 15 * 15, second := 0, microsecond := 0 }

/-- `dt + timedelta(minutes=15)` on the field representation (the timezone and
sub-minute fields are untouched; the carry goes into the hour count). -/
def addMinutes15 (dt : DT) : DT :=
  if dt.minute + 15 < 60 then { dt with minute := dt.minute + 15 }
  else { dt with hourIndex := dt.hourIndex + 1, minute := dt.minute + 15 - 60 }

/-- The boundary test of `_round_time_up`:
`dt.minute % 15 == 0 and dt.second == 0 and dt.microsecond == 0`. -/
def onBoundary (dt : DT) : Prop :=
  dt.minute % 15 = 0 ∧ dt.second = 0 ∧ dt.microsecond = 0

instance (dt : DT) : Decidable (onBoundary dt) := by
  unfold onBoundary
  infer_instance

/-- `_round_time_up(dt)`: Python returns `dt` if it is already on a 15-minute
boundary, and `_round_time_down(dt) + timedelta(minutes=15)` otherwise. -/
def round_time_up (dt : DT) : DT :=
  if onBoundary dt then dt else addMinutes15 (round_time_down dt)

/-- The stop time computed by `handle_end` from the parsed start time and the
current time (`==` between aware datetimes compares instants):
round `now` up when `start` and `now` round down to the same instant,
otherwise round `now` down. -/
def final_end_time (start now : DT) : DT :=
  if instant (round_time_down start) = instant (round_time_down now) then round_time_up now
  else round_time_down now

/-- `_format_iso(dt)`: Python `dt.isoformat(timespec="seconds")` — the wire
rendering of the timestamp, written down to whole seconds (the `timespec`
argument makes the formatter stop at the seconds field). -/
def format_iso (dt : DT) : String :=
  toString dt.hourIndex ++ ":" ++ toString dt.minute ++ ":" ++ toString dt.second
    ++ "+" ++ toString dt.offset

/-! ## Interactive-menu shortcut assignment -/

/-- `shortcut_from_char(char)` inside `ProjectMenu._shortcut_for_index`:
Python `f"[{char}] " if char else ""`. -/
def shortcut_from_char (c : String) : String :=
  if c = "" then "" else "[" ++ c ++ "] "

/-- `ProjectMenu._shortcut_for_index(index)`: indices 0-9 keep their digit;
from 10 on the index is mapped to the letters from `ord("a") = 97`, adding one
to skip `ord("q") = 113`, and indices reaching `ord("z") = 122` get no
shortcut.  Faithful to the Python including the `< ord("z")` strict bound. -/
def shortcut_for_index (index : Nat) : String :=
  if index < 10 then shortcut_from_char (toString index)
  else
    let i1 := index - 10 + 97
    let i2 := if 113 ≤ i1 then i1 + 1 else i1
    if i2 < 122 then shortcut_from_char (String.singleton (Char.ofNat i2)) else ""

/-- The letters the menu can assign: `a`-`p` then `r`-`y` (`q` is reserved for
quitting, and the `< ord("z")` bound means `z` is never reached). -/
def menuLetters : List Char :=
  ['a', 'b', 'c', 'd', 'e', 'f', 'g', 'h', 'i', 'j', 'k', 'l', 'm', 'n', 'o', 'p',
   'r', 's', 't', 'u', 'v', 'w', 'x', 'y']

/-! ## Strings as Python compares them

Python compares `str` values lexicographically by Unicode code point, and
`str.lower()` lowercases characterwise; both are modelled on the character
list of the Lean string (executable, unlike the stuck `String.lt`/`toLower`
kernel reductions). -/

/-- Lexicographic `<` on character lists, as Python compares strings. -/
def charListLt : List Char → List Char → Bool
  | _, [] => false
  | [], _ :: _ => true
  | a :: as, b :: bs => a < b || (a == b && charListLt as bs)

/-- Python `<` on strings. -/
def strLt (a b : String) : Bool := charListLt a.data b.data

/-- Python `str.lower()` (characterwise lowercasing). -/
def strLower (s : String) : String := String.mk (s.data.map Char.toLower)

/-! ## Projects and their ordering -/

/-- `DEFAULT_CLIENT` from `main.py`: the client name that sorts after every
other named client. -/
def DEFAULT_CLIENT : String := "Lunatech"

/-- The `Project` dataclass of `main.py` (ids are Python ints). -/
structure Project where
  id : Int
  name : String
  workspace_id : Int
  client : Option String := none
  «alias» : Option String := none
  billable : Bool := true
deriving DecidableEq, Repr

/-- The client-rank component of `Project._get_sort_key`:
`None` ranks 2, `DEFAULT_CLIENT` ranks 1, any other client ranks 0. -/
def clientRank (p : Project) : Nat :=
  match p.client with
  | none => 2
  | some c => if c = DEFAULT_CLIENT then 1 else 0

/-- Python `<` at the second sort-key position (`Optional[str]`).  The
`None`-versus-`str` cases would raise `TypeError` in Python; they are
unreachable because equal client ranks force equal `None`-ness (the returned
`false` there is never observed). -/
def clientLt : Option String → Option String → Bool
  | some a, some b => strLt a b
  | _, _ => false

/-- `Project.__lt__`: Python tuple comparison of the sort keys
`(client_rank, client, name)` — lexicographic, comparing the next component
only on equality of the previous one. -/
def projectLt (a b : Project) : Bool :=
  decide (clientRank a < clientRank b) ||
    (clientRank a == clientRank b &&
      (clientLt a.client b.client ||
        (a.client == b.client && strLt a.name b.name)))

/-- The sort key, with the (rank-separated) `None` client read as `""` so
that the key lives in a linearly ordered triple. -/
def sortKey (p : Project) : Nat × String × String :=
  (clientRank p, p.client.getD "", p.name)

/-- Lexicographic strict order on sort-key triples. -/
def tripleLt (x y : Nat × String × String) : Prop :=
  x.1 < y.1 ∨
    (x.1 = y.1 ∧
      (strLt x.2.1 y.2.1 = true ∨ (x.2.1 = y.2.1 ∧ strLt x.2.2 y.2.2 = true)))

/-- Example projects for the ordering scenario of the spec (claim C5). -/
def exAcme : Project := { id := 1, name := "pa", workspace_id := 1, client := some "Acme" }

def exZeta : Project := { id := 2, name := "pz", workspace_id := 1, client := some "Zeta" }

def exLunatech : Project :=
  { id := 3, name := "pl", workspace_id := 1, client := some "Lunatech" }

def exNoClient : Project := { id := 4, name := "pn", workspace_id := 1, client := none }

def exTieA : Project := { id := 5, name := "alpha", workspace_id := 1, client := some "Acme" }

def exTieB : Project := { id := 6, name := "beta", workspace_id := 1, client := some "Acme" }

/-! ## Config, project resolution, merge and the alias menu -/

/-- The `Config` dataclass.  `Config.projects` is a Python dict keyed by the
project's own id (`{project.id: project}` everywhere it is built), modelled as
the list of its values in insertion order; `dict.get` becomes a search for the
first entry with the given id.  `default_project_id` is `int | None`. -/
structure Config where
  projects : List Project := []
  default_project_id : Option Int := none
deriving DecidableEq, Repr

/-- `projects.get(i)` on the id-keyed project dict. -/
def dictGet (projects : List Project) (i : Int) : Option Project :=
  projects.find? (fun p => p.id == i)

/-- `Config._get_default_project`: Python
`self.projects.get(self.default_project_id) if self.default_project_id else None`
— note that the id `0` is falsy in Python, exactly like `None`. -/
def get_default_project (c : Config) : Option Project :=
  match c.default_project_id with
  | none => none
  | some d => if d = 0 then none else dictGet c.projects d

/-- The `alias_matches` test of `Config.get_project`: Python
`project.alias and project.alias == selector` (an unset or empty alias is
falsy, so it never matches). -/
def aliasMatches (p : Project) (selector : String) : Bool :=
  match p.«alias» with
  | none => false
  | some a => !(a == "") && (a == selector)

/-- `Config.get_project(selector)`: empty selector falls back to the default
project; otherwise the first project whose alias matches exactly or whose
lowercased name equals the lowercased selector is returned (`dict.values()`
iterates in insertion order). -/
def get_project (c : Config) (selector : String) : Option Project :=
  if selector = "" then get_default_project c
  else c.projects.find? (fun p => aliasMatches p selector || strLower p.name == strLower selector)

/-- The merge loop of `handle_projects`: each freshly fetched project whose id
exists in the old config gets the old alias copied onto it (`new_project.alias
= old_project.alias`); all other fields keep the fresh values. -/
def merge_refresh_projects (old : Config) (fresh : List Project) : List Project :=
  fresh.map fun np =>
    match dictGet old.projects np.id with
    | some op => { np with «alias» := op.«alias» }
    | none => np

/-- The default recomputation of `handle_projects`: Python
`default_project_still_exists = old_config.default_project_id and any(p.id ==
old_config.default_project_id for p in new_projects)` followed by
`new_default_id = old_config.default_project_id if default_project_still_exists
else None` — again `0` is falsy. -/
def merge_refresh_default (old : Config) (fresh : List Project) : Option Int :=
  match old.default_project_id with
  | none => none
  | some d => if d ≠ 0 ∧ (fresh.any fun p => p.id == d) then some d else none

/-- Python `str.strip()`: drop leading and trailing whitespace. -/
def pyStrip (s : String) : String :=
  String.mk (((s.data.dropWhile Char.isWhitespace).reverse.dropWhile Char.isWhitespace).reverse)

/-- Outcome of `ProjectMenu._show_change_alias_menu`: the three return paths
("Alias not changed.", the alias-conflict report, and a successful change).
None of them terminates the process; the menu loop continues with the
returned state. -/
inductive AliasResult
  | notChanged
  | conflict
  | changed
deriving DecidableEq, Repr

/-- `ProjectMenu._is_alias_used(alias)`:
`any(project.alias == alias for project in self.projects)`. -/
def is_alias_used (projects : List Project) (a : String) : Bool :=
  projects.any fun p => p.«alias» == some a

/-- `ProjectMenu._show_change_alias_menu` as a function of the menu's project
list, the selected index and the raw `input()` line: the entered value is
stripped; blank or unchanged input changes nothing; a value already used as an
alias is reported as a conflict and changes nothing; otherwise the selected
project's alias is set. -/
def show_change_alias_menu (projects : List Project) (idx : Nat) (rawInput : String) :
    List Project × AliasResult :=
  match projects[idx]? with
  | none => (projects, AliasResult.notChanged)
  | some sel =>
    let v := pyStrip rawInput
    if v = "" ∨ sel.«alias» = some v then (projects, AliasResult.notChanged)
    else if is_alias_used projects v then (projects, AliasResult.conflict)
    else (projects.set idx { sel with «alias» := some v }, AliasResult.changed)

/-- Concrete data for the id-0 default counterexample of `get_project`. -/
def pZero : Project := { id := 0, name := "zero", workspace_id := 1 }

def cfgZero : Config := { projects := [pZero], default_project_id := some 0 }

/-- Concrete data for the resolution witness: one aliased project. -/
def pSel : Project := { id := 1, name := "Foo", workspace_id := 1, «alias» := some "f" }

def cfgSel : Config := { projects := [pSel] }

/-- Concrete data for the id-0 merge counterexample. -/
def cfgMergeZero : Config :=
  { projects := [{ id := 0, name := "a", workspace_id := 1 }], default_project_id := some 0 }

def freshZero : List Project := [{ id := 0, name := "b", workspace_id := 1 }]

/-- Concrete data for the merge witness: the spec's id-5 alias scenario. -/
def oldP5 : Project := { id := 5, name := "old", workspace_id := 1, «alias» := some "proj5" }

def oldCfg5 : Config := { projects := [oldP5], default_project_id := some 5 }

def freshP5 : Project := { id := 5, name := "newname", workspace_id := 1 }

/-- Concrete data for the alias-conflict witness. -/
def pMenu0 : Project := { id := 1, name := "n1", workspace_id := 1 }

def pMenu1 : Project := { id := 2, name := "n2", workspace_id := 1, «alias» := some "x" }

/-! ## Fetching and initial configuration -/

/-- A project record as returned by the `/me?with_related_data=true` endpoint,
restricted to the fields `_fetch_projects` reads. -/
structure RawProject where
  id : Int
  name : String
  workspace_id : Int
  client_id : Option Int := none
  billable : Bool := true
  active : Bool := true
  is_private : Bool := false
deriving DecidableEq, Repr

/-- `clients_map.get(p["client_id"])`: the client-id-to-name dict built from
the response (`dict.get` on a missing or `null` key gives `None`). -/
def lookupClient (clientsMap : List (Int × String)) (cid : Option Int) : Option String :=
  match cid with
  | none => none
  | some c => (clientsMap.find? fun kv => kv.1 == c).map fun kv => kv.2

/-- The `Project(...)` construction inside `_fetch_projects`: alias starts
unset. -/
def rawToProject (clientsMap : List (Int × String)) (r : RawProject) : Project :=
  { id := r.id, name := r.name, workspace_id := r.workspace_id,
    client := lookupClient clientsMap r.client_id, «alias» := none, billable := r.billable }

/-- `_fetch_projects`: keep the raw projects with `p["active"] and not
p["is_private"]`, convert them, and sort with `Project.__lt__` (Python
`list.sort()` is a stable sort driven by `<`; `mergeSort` with
`le a b := not (b < a)` is that sort). -/
def fetch_projects (clientsMap : List (Int × String)) (raws : List RawProject) : List Project :=
  ((raws.filter fun r => r.active && !r.is_private).map (rawToProject clientsMap)).mergeSort
    fun a b => !projectLt b a

/-- One insertion step of a Python dict comprehension keyed by `project.id`:
an existing key keeps its position and gets the new value, a new key is
appended. -/
def dictInsertP (m : List Project) (p : Project) : List Project :=
  if m.any fun q => q.id == p.id then m.map fun q => if q.id == p.id then p else q
  else m ++ [p]

/-- `_projects_to_dict(projects)`: `{project.id: project for project in
projects}` as the dict's value list. -/
def projects_to_dict (ps : List Project) : List Project :=
  ps.foldl dictInsertP []

/-- `handle_init`: `Config(projects=_projects_to_dict(_fetch_projects()))` —
the saved config, with the default left at its `None` field default. -/
def init_config (clientsMap : List (Int × String)) (raws : List RawProject) : Config :=
  { projects := projects_to_dict (fetch_projects clientsMap raws), default_project_id := none }

/-- Concrete API data for the init witness: one active public project, one
inactive and one private project. -/
def clientsW : List (Int × String) := [(1, "Acme")]

def rawsW : List RawProject :=
  [{ id := 1, name := "a", workspace_id := 9, client_id := some 1 },
   { id := 2, name := "b", workspace_id := 9, active := false },
   { id := 3, name := "c", workspace_id := 9, is_private := true }]

/-! ## Theorems -/

theorem instant_round_down_le (t : DT) : instant (round_time_down t) ≤ instant t := by
  simp only [instant, round_time_down]
  push_cast
  have h := Nat.div_mul_le_self t.minute 15
  omega

theorem instant_sub_round_down_lt (t : DT) (hv : t.valid) :
    instant t - instant (round_time_down t) < 900000000 := by
  obtain ⟨h1, h2, h3⟩ := hv
  simp only [instant, round_time_down]
  push_cast
  omega

theorem instant_addMinutes15 (t : DT) :
    instant (addMinutes15 t) = instant t + 900000000 := by
  simp only [instant, addMinutes15]
  split <;> (push_cast; omega)

theorem instant_round_up_of_not_boundary (t : DT) (h : ¬ onBoundary t) :
    instant (round_time_up t) = instant (round_time_down t) + 900000000 := by
  rw [round_time_up, if_neg h, instant_addMinutes15]

/-- C2: `_round_time_down` zeroes the seconds and microseconds, truncates the
minute to the largest multiple of 15 below it, never moves the instant
forward, and moves it back by less than 15 minutes.  (It is a total pure
function by construction: a Lean `def` with no failure mode.) -/
theorem round_time_down_spec (t : DT) (hv : t.valid) :
    (round_time_down t).second = 0 ∧
    (round_time_down t).microsecond = 0 ∧
    (round_time_down t).minute % 15 = 0 ∧
    (round_time_down t).minute ≤ t.minute ∧
    (∀ k : Nat, k % 15 = 0 → k ≤ t.minute → k ≤ (round_time_down t).minute) ∧
    instant (round_time_down t) ≤ instant t ∧
    instant t - instant (round_time_down t) < 15 * 60 * 1000000 := by
  refine ⟨rfl, rfl, ?_, ?_, ?_, instant_round_down_le t, ?_⟩
  · show t.minute / 15 * 15 % 15 = 0
    omega
  · show t.minute / 15 * 15 ≤ t.minute
    omega
  · intro k hk hle
    show k ≤ t.minute / 15 * 15
    omega
  · have h := instant_sub_round_down_lt t hv
    omega

theorem round_time_down_spec_witness :
    instant (round_time_down ⟨12, 37, 23, 456, 0⟩) ≤ instant (⟨12, 37, 23, 456, 0⟩ : DT) ∧
    instant (⟨12, 37, 23, 456, 0⟩ : DT) - instant (round_time_down ⟨12, 37, 23, 456, 0⟩)
      < 15 * 60 * 1000000 :=
  ⟨(round_time_down_spec ⟨12, 37, 23, 456, 0⟩ (by decide)).2.2.2.2.2.1,
   (round_time_down_spec ⟨12, 37, 23, 456, 0⟩ (by decide)).2.2.2.2.2.2⟩

/-- C3: `_round_time_up` is the identity on 15-minute boundaries, otherwise it
is `_round_time_down` plus 15 minutes, and it never moves the instant
backwards. -/
theorem round_time_up_spec (t : DT) (hv : t.valid) :
    (onBoundary t → round_time_up t = t) ∧
    (¬ onBoundary t → round_time_up t = addMinutes15 (round_time_down t)) ∧
    (¬ onBoundary t →
      instant (round_time_up t) = instant (round_time_down t) + 15 * 60 * 1000000) ∧
    instant t ≤ instant (round_time_up t) := by
  refine ⟨fun h => by rw [round_time_up, if_pos h],
          fun h => by rw [round_time_up, if_neg h],
          fun h => by rw [instant_round_up_of_not_boundary t h]; norm_num, ?_⟩
  by_cases h : onBoundary t
  · rw [round_time_up, if_pos h]
  · rw [instant_round_up_of_not_boundary t h]
    have h1 := instant_sub_round_down_lt t hv
    omega

theorem round_time_up_spec_witness :
    instant (⟨12, 37, 23, 456, 0⟩ : DT) ≤ instant (round_time_up ⟨12, 37, 23, 456, 0⟩) :=
  (round_time_up_spec ⟨12, 37, 23, 456, 0⟩ (by decide)).2.2.2

/-- C1 (counterexample to the claim as stated): when the entry starts exactly
on a 15-minute boundary and `now` is that same instant, the raw elapsed time
(zero) falls within a single 15-minute block, yet the computed stop time
equals the start — it is not strictly greater. -/
theorem stop_time_policy_boundary_counterexample :
    instant (⟨10, 0, 0, 0, 0⟩ : DT) ≤ instant (⟨10, 0, 0, 0, 0⟩ : DT) ∧
    instant (round_time_down ⟨10, 0, 0, 0, 0⟩) = instant (round_time_down ⟨10, 0, 0, 0, 0⟩) ∧
    ¬ instant (⟨10, 0, 0, 0, 0⟩ : DT)
        < instant (final_end_time ⟨10, 0, 0, 0, 0⟩ ⟨10, 0, 0, 0, 0⟩) := by
  decide

/-- C1 (amended): the stop time used by `handle_end` is `roundUp(now)` when
`start` and `now` round down to the same block and `roundDown(now)` otherwise;
and whenever they round down to the same block **and `now` is not itself
exactly on a 15-minute boundary**, the stop time is strictly greater than the
start (when `now` is exactly on a boundary the stop equals `now`).  The spec's
two worked examples (start 10:07 with now 10:12, and with now 10:22, both
giving stop 10:15) are included. -/
theorem stop_time_policy (start now : DT) (hs : start.valid) :
    (instant (round_time_down start) = instant (round_time_down now) →
      final_end_time start now = round_time_up now) ∧
    (instant (round_time_down start) ≠ instant (round_time_down now) →
      final_end_time start now = round_time_down now) ∧
    (instant (round_time_down start) = instant (round_time_down now) → ¬ onBoundary now →
      instant start < instant (final_end_time start now)) ∧
    final_end_time ⟨10, 7, 0, 0, 0⟩ ⟨10, 12, 0, 0, 0⟩ = ⟨10, 15, 0, 0, 0⟩ ∧
    final_end_time ⟨10, 7, 0, 0, 0⟩ ⟨10, 22, 0, 0, 0⟩ = ⟨10, 15, 0, 0, 0⟩ := by
  refine ⟨fun h => by rw [final_end_time, if_pos h],
          fun h => by rw [final_end_time, if_neg h],
          ?_, by decide, by decide⟩
  intro h hb
  rw [final_end_time, if_pos h, instant_round_up_of_not_boundary now hb]
  have h1 := instant_sub_round_down_lt start hs
  have h2 := instant_round_down_le start
  omega

theorem stop_time_policy_witness :
    instant (⟨10, 7, 0, 0, 0⟩ : DT)
      < instant (final_end_time ⟨10, 7, 0, 0, 0⟩ ⟨10, 12, 0, 0, 0⟩) :=
  (stop_time_policy ⟨10, 7, 0, 0, 0⟩ ⟨10, 12, 0, 0, 0⟩ (by decide)).2.2.1 (by decide) (by decide)

theorem instant_round_down_mod (t : DT) (hoff : t.offset % 15 = 0) :
    instant (round_time_down t) % 900000000 = 0 := by
  simp only [instant, round_time_down]
  push_cast
  omega

theorem instant_round_down_eq_of_instant_eq (a b : DT)
    (ha : a.offset % 15 = 0) (hb : b.offset % 15 = 0)
    (hva : a.valid) (hvb : b.valid) (h : instant a = instant b) :
    instant (round_time_down a) = instant (round_time_down b) := by
  have m1 := instant_round_down_mod a ha
  have m2 := instant_round_down_mod b hb
  have l1 := instant_round_down_le a
  have l2 := instant_round_down_le b
  have s1 := instant_sub_round_down_lt a hva
  have s2 := instant_sub_round_down_lt b hvb
  omega

/-- C9 (counterexample to the claim as stated): `handle_end` parses the start
timestamp with `datetime.fromisoformat(s.replace("Z", "+00:00"))`, which keeps
whatever UTC offset the string carries — it does **not** normalize to UTC.
For an offset that is not a multiple of 15 minutes the rounding happens on the
wall-clock fields of that offset, so two representations of the *same start
instant* lead to different same-block decisions and different stop instants:
start `..:14:00` at offset +7 min and start `..:07:00` at UTC denote the same
instant, yet with now = `..:10:00Z` the first yields stop `..:00` and the
second stop `..:15`. -/
theorem end_time_offset_counterexample :
    instant (⟨10, 14, 0, 0, 7⟩ : DT) = instant (⟨10, 7, 0, 0, 0⟩ : DT) ∧
    instant (final_end_time ⟨10, 14, 0, 0, 7⟩ ⟨10, 10, 0, 0, 0⟩)
      ≠ instant (final_end_time ⟨10, 7, 0, 0, 0⟩ ⟨10, 10, 0, 0, 0⟩) := by
  decide

/-- C9 (amended): the stop instant computed by `handle_end` depends only on
the instants denoted by the start and current times *provided* the start
timestamp's UTC offset is a multiple of 15 minutes (in particular for `Z` /
`+00:00`, the offsets the Toggl API actually sends); and the wire format
(`isoformat(timespec="seconds")`) has second precision — the microsecond field
never influences it. -/
theorem end_time_utc (s1 s2 now : DT)
    (h1 : s1.offset % 15 = 0) (h2 : s2.offset % 15 = 0)
    (hv1 : s1.valid) (hv2 : s2.valid)
    (heq : instant s1 = instant s2) :
    instant (final_end_time s1 now) = instant (final_end_time s2 now) ∧
    (∀ dt : DT, ∀ u : Nat, format_iso { dt with microsecond := u } = format_iso dt) := by
  have hrd := instant_round_down_eq_of_instant_eq s1 s2 h1 h2 hv1 hv2 heq
  constructor
  · unfold final_end_time
    rw [hrd]
  · intro dt u
    rfl

theorem end_time_utc_witness :
    instant (final_end_time ⟨10, 22, 0, 0, 15⟩ ⟨10, 10, 0, 0, 0⟩)
      = instant (final_end_time ⟨10, 7, 0, 0, 0⟩ ⟨10, 10, 0, 0, 0⟩) :=
  (end_time_utc ⟨10, 22, 0, 0, 15⟩ ⟨10, 7, 0, 0, 0⟩ ⟨10, 10, 0, 0, 0⟩
    (by decide) (by decide) (by decide) (by decide) (by decide)).1

theorem shortcut_for_index_empty_of_ge (i : Nat) (h : 34 ≤ i) :
    shortcut_for_index i = "" := by
  simp only [shortcut_for_index]
  rw [if_neg (by omega : ¬ i < 10), if_pos (by omega : 113 ≤ i - 10 + 97),
    if_neg (by omega : ¬ i - 10 + 97 + 1 < 122)]

/-- C10: the menu shortcut assignment is a pure function from index to label:
indices 0-9 get their digit, indices 10-33 get a lowercase letter other than
`q` (drawn from `a`-`p`, `r`-`y`), the letter `q` never occurs in any label,
distinct indices never share a non-empty label, and indices 34 and above get
the empty label. -/
theorem shortcut_for_index_spec :
    (∀ i : Nat, i < 10 → shortcut_for_index i = "[" ++ toString i ++ "] ") ∧
    (∀ i : Nat, i < 34 → 10 ≤ i →
      ∃ c ∈ menuLetters, shortcut_for_index i = "[" ++ String.singleton c ++ "] ") ∧
    (∀ i : Nat, 'q' ∉ (shortcut_for_index i).data) ∧
    (∀ i j : Nat, shortcut_for_index i ≠ "" → i ≠ j →
      shortcut_for_index i ≠ shortcut_for_index j) ∧
    (∀ i : Nat, 34 ≤ i → shortcut_for_index i = "") := by
  have hsmall : ∀ i : Nat, i < 34 → 'q' ∉ (shortcut_for_index i).data := by decide
  have hinj : ∀ i : Nat, i < 34 → ∀ j : Nat, j < 34 → i ≠ j →
      shortcut_for_index i ≠ shortcut_for_index j := by decide
  refine ⟨by decide, by decide, ?_, ?_, shortcut_for_index_empty_of_ge⟩
  · intro i
    rcases lt_or_ge i 34 with h | h
    · exact hsmall i h
    · rw [shortcut_for_index_empty_of_ge i h]
      simp
  · intro i j hne hij
    rcases lt_or_ge i 34 with hi | hi
    · rcases lt_or_ge j 34 with hj | hj
      · exact hinj i hi j hj hij
      · rw [shortcut_for_index_empty_of_ge j hj]
        exact hne
    · exact absurd (shortcut_for_index_empty_of_ge i hi) hne

theorem shortcut_for_index_spec_witness :
    shortcut_for_index 3 = "[" ++ toString 3 ++ "] " :=
  shortcut_for_index_spec.1 3 (by decide)

theorem charListLt_irrefl (l : List Char) : charListLt l l = false := by
  induction l with
  | nil => rfl
  | cons a as ih => simp [charListLt, ih]

theorem charListLt_trans (x : List Char) :
    ∀ y z, charListLt x y = true → charListLt y z = true → charListLt x z = true := by
  induction x with
  | nil =>
    intro y z h1 h2
    cases z with
    | nil =>
      cases y with
      | nil => exact h2
      | cons b bs => simp [charListLt] at h2
    | cons c cs => simp [charListLt]
  | cons a as ih =>
    intro y z h1 h2
    cases y with
    | nil => simp [charListLt] at h1
    | cons b bs =>
      cases z with
      | nil => simp [charListLt] at h2
      | cons c cs =>
        simp only [charListLt, Bool.or_eq_true, Bool.and_eq_true, decide_eq_true_eq,
          beq_iff_eq] at h1 h2 ⊢
        rcases h1 with h1 | ⟨rfl, h1⟩
        · rcases h2 with h2 | ⟨rfl, h2⟩
          · exact Or.inl (lt_trans h1 h2)
          · exact Or.inl h1
        · rcases h2 with h2 | ⟨rfl, h2⟩
          · exact Or.inl h2
          · exact Or.inr ⟨rfl, ih bs cs h1 h2⟩

theorem charListLt_eq_of_not (x : List Char) :
    ∀ y, charListLt x y = false → charListLt y x = false → x = y := by
  induction x with
  | nil =>
    intro y h1 _
    cases y with
    | nil => rfl
    | cons b bs => simp [charListLt] at h1
  | cons a as ih =>
    intro y h1 h2
    cases y with
    | nil => simp [charListLt] at h2
    | cons b bs =>
      simp only [charListLt, Bool.or_eq_false_iff, Bool.and_eq_false_iff,
        decide_eq_false_iff_not, beq_iff_eq] at h1 h2
      have hab : a = b := le_antisymm (not_lt.mp h2.1) (not_lt.mp h1.1)
      subst hab
      have r1 : charListLt as bs = false := by
        rcases h1.2 with h | h
        · simp at h
        · exact h
      have r2 : charListLt bs as = false := by
        rcases h2.2 with h | h
        · simp at h
        · exact h
      rw [ih bs r1 r2]

theorem strLt_irrefl (s : String) : strLt s s = false := charListLt_irrefl s.data

theorem strLt_trans (a b c : String) (h1 : strLt a b = true) (h2 : strLt b c = true) :
    strLt a c = true :=
  charListLt_trans a.data b.data c.data h1 h2

theorem strLt_eq_of_not (a b : String) (h1 : strLt a b = false) (h2 : strLt b a = false) :
    a = b := by
  exact String.ext (charListLt_eq_of_not a.data b.data h1 h2)

theorem projectLt_iff (a b : Project) :
    projectLt a b = true ↔ tripleLt (sortKey a) (sortKey b) := by
  simp only [projectLt, tripleLt, sortKey, Bool.or_eq_true, Bool.and_eq_true,
    decide_eq_true_eq, beq_iff_eq]
  refine or_congr Iff.rfl (and_congr_right fun hrank => ?_)
  cases hca : a.client with
  | none =>
    cases hcb : b.client with
    | none =>
      simp [clientLt, Option.getD, show strLt "" "" = false from by decide]
    | some cb =>
      exfalso
      simp only [clientRank, hca, hcb] at hrank
      split at hrank <;> omega
  | some ca =>
    cases hcb : b.client with
    | none =>
      exfalso
      simp only [clientRank, hca, hcb] at hrank
      split at hrank <;> omega
    | some cb =>
      simp [clientLt, Option.getD]

theorem tripleLt_irrefl (x : Nat × String × String) : ¬ tripleLt x x := by
  rintro (h | ⟨-, h | ⟨-, h⟩⟩)
  · omega
  · rw [strLt_irrefl] at h
    simp at h
  · rw [strLt_irrefl] at h
    simp at h

theorem tripleLt_trans (x y z : Nat × String × String)
    (h1 : tripleLt x y) (h2 : tripleLt y z) : tripleLt x z := by
  obtain ⟨x1, x2, x3⟩ := x
  obtain ⟨y1, y2, y3⟩ := y
  obtain ⟨z1, z2, z3⟩ := z
  simp only [tripleLt] at h1 h2 ⊢
  rcases h1 with h1 | ⟨rfl, h1 | ⟨rfl, h1⟩⟩
  · rcases h2 with h2 | ⟨rfl, h2⟩
    · exact Or.inl (lt_trans h1 h2)
    · exact Or.inl h1
  · rcases h2 with h2 | ⟨rfl, h2 | ⟨rfl, h2⟩⟩
    · exact Or.inl h2
    · exact Or.inr ⟨rfl, Or.inl (strLt_trans _ _ _ h1 h2)⟩
    · exact Or.inr ⟨rfl, Or.inl h1⟩
  · rcases h2 with h2 | ⟨rfl, h2 | ⟨rfl, h2⟩⟩
    · exact Or.inl h2
    · exact Or.inr ⟨rfl, Or.inl h2⟩
    · exact Or.inr ⟨rfl, Or.inr ⟨rfl, strLt_trans _ _ _ h1 h2⟩⟩

theorem tripleLt_total_eq (x y : Nat × String × String)
    (h1 : ¬ tripleLt x y) (h2 : ¬ tripleLt y x) : x = y := by
  obtain ⟨x1, x2, x3⟩ := x
  obtain ⟨y1, y2, y3⟩ := y
  simp only [tripleLt, not_or, not_and] at h1 h2
  obtain ⟨h1a, h1b⟩ := h1
  obtain ⟨h2a, h2b⟩ := h2
  have e1 : x1 = y1 := by omega
  subst e1
  obtain ⟨h1c, h1d⟩ := h1b rfl
  obtain ⟨h2c, h2d⟩ := h2b rfl
  have e2 : x2 = y2 :=
    strLt_eq_of_not x2 y2 (Bool.eq_false_iff.mpr h1c) (Bool.eq_false_iff.mpr h2c)
  subst e2
  have e3 : x3 = y3 :=
    strLt_eq_of_not x3 y3 (Bool.eq_false_iff.mpr (h1d rfl)) (Bool.eq_false_iff.mpr (h2d rfl))
  subst e3
  rfl

/-- C5: `Project.__lt__` (tuple comparison of `(client_rank, client, name)`)
is a strict weak ordering on all projects, including projects with no client:
it is irreflexive and transitive, and incomparability is transitive.  On the
spec's scenario it orders client "Acme" before "Zeta" before the fallback
client "Lunatech" before no-client, and breaks same-client ties by project
name ascending. -/
theorem project_ordering_strict_weak :
    (∀ a : Project, projectLt a a = false) ∧
    (∀ a b c : Project, projectLt a b = true → projectLt b c = true →
      projectLt a c = true) ∧
    (∀ a b c : Project,
      projectLt a b = false → projectLt b a = false → projectLt b c = false →
      projectLt c b = false → projectLt a c = false ∧ projectLt c a = false) ∧
    projectLt exAcme exZeta = true ∧ projectLt exZeta exLunatech = true ∧
    projectLt exLunatech exNoClient = true ∧ projectLt exTieA exTieB = true := by
  have hfalse : ∀ a b : Project,
      projectLt a b = false ↔ ¬ tripleLt (sortKey a) (sortKey b) := by
    intro a b
    rw [← projectLt_iff]
    cases h : projectLt a b <;> simp
  refine ⟨?_, ?_, ?_, by decide, by decide, by decide, by decide⟩
  · intro a
    rw [hfalse]
    exact tripleLt_irrefl _
  · intro a b c h1 h2
    rw [projectLt_iff] at h1 h2 ⊢
    exact tripleLt_trans _ _ _ h1 h2
  · intro a b c h1 h2 h3 h4
    simp only [hfalse] at h1 h2 h3 h4 ⊢
    have e1 := tripleLt_total_eq _ _ h1 h2
    have e2 := tripleLt_total_eq _ _ h3 h4
    constructor
    · rw [e1, e2]
      exact tripleLt_irrefl _
    · rw [e1, e2]
      exact tripleLt_irrefl _

theorem project_ordering_strict_weak_witness :
    projectLt exAcme exLunatech = true :=
  project_ordering_strict_weak.2.1 exAcme exZeta exLunatech (by decide) (by decide)

theorem aliasMatches_iff (p : Project) (sel : String) :
    aliasMatches p sel = true ↔ p.«alias» = some sel ∧ sel ≠ "" := by
  unfold aliasMatches
  cases h : p.«alias» with
  | none => simp
  | some a =>
    simp only [Bool.and_eq_true, Bool.not_eq_true', beq_eq_false_iff_ne, ne_eq, beq_iff_eq,
      Option.some.injEq]
    constructor
    · rintro ⟨h1, rfl⟩
      exact ⟨rfl, h1⟩
    · rintro ⟨rfl, h1⟩
      exact ⟨h1, rfl⟩

/-- C6 (counterexample to the claim as stated): with `default_project_id = 0`
and a project with id 0 configured, the empty selector returns `None` — the
Python truthiness test `if self.default_project_id` treats the set default `0`
like an unset one — although the claim requires the configured default
project to be returned whenever a default is set. -/
theorem get_project_zero_default_counterexample :
    cfgZero.default_project_id = some 0 ∧
    dictGet cfgZero.projects 0 = some pZero ∧
    get_project cfgZero "" = none := by
  decide

/-- C6 (amended): for a non-empty selector, `get_project` returns a configured
project whose alias equals the selector exactly or whose name matches it
case-insensitively whenever one exists, and `none` when no project matches;
for the empty selector it returns `none` when no default is set, and the
project referenced by `default_project_id` whenever that id is **non-zero**
and present (the set default id `0` is treated like an unset one by Python
truthiness). -/
theorem get_project_spec (c : Config) (selector : String) :
    (∀ p, selector ≠ "" → get_project c selector = some p →
      p ∈ c.projects ∧ (p.«alias» = some selector ∨ strLower p.name = strLower selector)) ∧
    (selector ≠ "" → get_project c selector = none →
      ∀ p ∈ c.projects, p.«alias» ≠ some selector ∧ strLower p.name ≠ strLower selector) ∧
    (c.default_project_id = none → get_project c "" = none) ∧
    (∀ d p, c.default_project_id = some d → d ≠ 0 → dictGet c.projects d = some p →
      get_project c "" = some p) := by
  refine ⟨?_, ?_, ?_, ?_⟩
  · intro p hsel hp
    rw [get_project, if_neg hsel] at hp
    refine ⟨List.mem_of_find?_eq_some hp, ?_⟩
    have hpred := List.find?_some hp
    rcases Bool.or_eq_true_iff.mp hpred with h | h
    · exact Or.inl ((aliasMatches_iff p selector).mp h).1
    · exact Or.inr (beq_iff_eq.mp h)
  · intro hsel hp p hmem
    rw [get_project, if_neg hsel] at hp
    have hpred := List.find?_eq_none.mp hp p hmem
    constructor
    · intro ha
      exact hpred (Bool.or_eq_true_iff.mpr
        (Or.inl ((aliasMatches_iff p selector).mpr ⟨ha, hsel⟩)))
    · intro hn
      exact hpred (Bool.or_eq_true_iff.mpr (Or.inr (beq_iff_eq.mpr hn)))
  · intro hd
    rw [get_project, if_pos rfl, get_default_project, hd]
  · intro d p hd hdz hget
    rw [get_project, if_pos rfl, get_default_project, hd]
    simp only [if_neg hdz]
    exact hget

theorem get_project_spec_witness :
    pSel ∈ cfgSel.projects ∧
    (pSel.«alias» = some "f" ∨ strLower pSel.name = strLower "f") :=
  (get_project_spec cfgSel "f").1 pSel (by decide) (by decide)

/-- C4 (counterexample to the claim as stated): with old
`default_project_id = 0` and a fresh project with id 0 present, the merged
default becomes unset — `0` is falsy in the Python test
`old_config.default_project_id and any(...)` — although the claim requires
the merged default to equal the old id whenever that id is present among the
fresh projects' ids. -/
theorem merge_refresh_zero_counterexample :
    cfgMergeZero.default_project_id = some 0 ∧
    (freshZero.any fun p => p.id == 0) = true ∧
    merge_refresh_default cfgMergeZero freshZero = none := by
  decide

/-- C4 (amended): on refresh, each fresh project whose id exists in the old
config gets the old alias and keeps every other fresh field, fresh projects
with no old counterpart are kept unchanged (so their alias stays unset), and
the merged default equals the old default id whenever it is set, **non-zero**
and present among the fresh ids, and is unset otherwise (unset, absent from
the fresh ids, or the falsy id `0`). -/
theorem merge_refresh_spec (old : Config) (fresh : List Project) :
    (∀ (i : Nat) (np op : Project), fresh[i]? = some np →
      dictGet old.projects np.id = some op →
      (merge_refresh_projects old fresh)[i]? = some { np with «alias» := op.«alias» }) ∧
    (∀ (i : Nat) (np : Project), fresh[i]? = some np →
      dictGet old.projects np.id = none →
      (merge_refresh_projects old fresh)[i]? = some np) ∧
    (∀ d : Int, old.default_project_id = some d → d ≠ 0 →
      (fresh.any fun p => p.id == d) = true → merge_refresh_default old fresh = some d) ∧
    (∀ d : Int, old.default_project_id = some d → (fresh.any fun p => p.id == d) = false →
      merge_refresh_default old fresh = none) ∧
    (old.default_project_id = none → merge_refresh_default old fresh = none) := by
  refine ⟨?_, ?_, ?_, ?_, ?_⟩
  · intro i np op h1 h2
    simp [merge_refresh_projects, List.getElem?_map, h1, h2]
  · intro i np h1 h2
    simp [merge_refresh_projects, List.getElem?_map, h1, h2]
  · intro d hd hdz hany
    simp [merge_refresh_default, hd, hdz, hany]
  · intro d hd hany
    simp [merge_refresh_default, hd, hany]
  · intro hd
    simp [merge_refresh_default, hd]

theorem merge_refresh_spec_witness :
    (merge_refresh_projects oldCfg5 [freshP5])[0]? =
      some { freshP5 with «alias» := some "proj5" } :=
  (merge_refresh_spec oldCfg5 [freshP5]).1 0 freshP5 oldP5 (by decide) (by decide)

/-- C7: when the stripped input names an alias already used by a different
project (and differs from the selected project's own alias, as alias
uniqueness guarantees), `_show_change_alias_menu` leaves the whole project
list — in particular both projects' aliases — unchanged and reports the
conflict; the function returns normally to the menu loop, so the interactive
session continues (no path of this handler terminates the process). -/
theorem alias_conflict_nonfatal (projects : List Project) (idx j : Nat) (rawInput : String)
    (selp conflp : Project)
    (hsel : projects[idx]? = some selp)
    (hconfl : projects[j]? = some conflp)
    (hne : j ≠ idx)
    (hv : pyStrip rawInput ≠ "")
    (hused : conflp.«alias» = some (pyStrip rawInput))
    (hdiff : selp.«alias» ≠ some (pyStrip rawInput)) :
    show_change_alias_menu projects idx rawInput = (projects, AliasResult.conflict) := by
  have hmem : conflp ∈ projects := List.getElem?_mem hconfl
  have hcond : ¬ (pyStrip rawInput = "" ∨ selp.«alias» = some (pyStrip rawInput)) := by
    rintro (h | h)
    · exact hv h
    · exact hdiff h
  have hau : is_alias_used projects (pyStrip rawInput) = true :=
    List.any_eq_true.mpr ⟨conflp, hmem, beq_iff_eq.mpr hused⟩
  rw [show_change_alias_menu, hsel]
  simp only [if_neg hcond, hau, if_true]

theorem alias_conflict_nonfatal_witness :
    show_change_alias_menu [pMenu0, pMenu1] 0 " x " = ([pMenu0, pMenu1], AliasResult.conflict) :=
  alias_conflict_nonfatal [pMenu0, pMenu1] 0 1 " x " pMenu0 pMenu1
    (by decide) (by decide) (by decide) (by decide) (by decide) (by decide)

theorem dictInsertP_of_new (m : List Project) (p : Project)
    (h : (m.any fun q => q.id == p.id) = false) : dictInsertP m p = m ++ [p] := by
  rw [dictInsertP, h]
  simp

theorem projects_to_dict_go (ps : List Project) :
    ∀ acc : List Project, ((acc ++ ps).map Project.id).Nodup →
      ps.foldl dictInsertP acc = acc ++ ps := by
  induction ps with
  | nil =>
    intro acc _
    simp
  | cons p ps ih =>
    intro acc h
    have hnotin : (acc.any fun q => q.id == p.id) = false := by
      rw [Bool.eq_false_iff]
      intro hany
      obtain ⟨q, hq, hqe⟩ := List.any_eq_true.mp hany
      have h' := h
      simp only [List.map_append, List.map_cons] at h'
      exact List.disjoint_of_nodup_append h' (List.mem_map_of_mem Project.id hq)
        (by rw [beq_iff_eq.mp hqe]; exact List.mem_cons_self _ _)
    rw [List.foldl_cons, dictInsertP_of_new acc p hnotin,
      ih (acc ++ [p]) (by simpa using h)]
    simp

theorem projects_to_dict_of_nodup (ps : List Project) (h : (ps.map Project.id).Nodup) :
    projects_to_dict ps = ps := by
  have hgo := projects_to_dict_go ps [] (by simpa using h)
  simpa [projects_to_dict] using hgo

/-- C8: the configuration built by `handle_init` has no default project, and
its project dict contains exactly the conversions of the fetched projects
that are active and not private — every inactive or private raw project is
filtered out before storage (raw ids are unique, as the remote service
assigns them). -/
theorem handle_init_spec (clientsMap : List (Int × String)) (raws : List RawProject)
    (huniq : (raws.map RawProject.id).Nodup) :
    (init_config clientsMap raws).default_project_id = none ∧
    ∀ q : Project, q ∈ (init_config clientsMap raws).projects ↔
      ∃ r ∈ raws, r.active = true ∧ r.is_private = false ∧
        q = rawToProject clientsMap r := by
  have hfsub : ((raws.filter fun r => r.active && !r.is_private).map RawProject.id).Nodup :=
    huniq.sublist (List.Sublist.map RawProject.id (List.filter_sublist raws))
  have hmapmap :
      ((raws.filter fun r => r.active && !r.is_private).map
          (rawToProject clientsMap)).map Project.id
        = (raws.filter fun r => r.active && !r.is_private).map RawProject.id := by
    rw [List.map_map]
    rfl
  have hperm := List.mergeSort_perm
    ((raws.filter fun r => r.active && !r.is_private).map (rawToProject clientsMap))
    (fun a b => !projectLt b a)
  have hids : ((fetch_projects clientsMap raws).map Project.id).Nodup := by
    rw [fetch_projects]
    exact ((hperm.map Project.id).nodup_iff).mpr (hmapmap ▸ hfsub)
  have hdict : (init_config clientsMap raws).projects = fetch_projects clientsMap raws :=
    projects_to_dict_of_nodup _ hids
  refine ⟨rfl, ?_⟩
  intro q
  rw [hdict, fetch_projects, hperm.mem_iff]
  simp only [List.mem_map, List.mem_filter, Bool.and_eq_true, Bool.not_eq_true']
  constructor
  · rintro ⟨r, ⟨hr, ha, hp⟩, rfl⟩
    exact ⟨r, hr, ha, hp, rfl⟩
  · rintro ⟨r, hr, ha, hp, rfl⟩
    exact ⟨r, ⟨hr, ha, hp⟩, rfl⟩

theorem handle_init_spec_witness :
    (init_config clientsW rawsW).default_project_id = none :=
  (handle_init_spec clientsW rawsW (by decide)).1

end Toggl
